import Mathlib

/-!
Verification of `interface_list` (src/completion/list_interfaces/iface.c).

`interface_list` wraps `getifaddrs(3)` for OCaml: it walks the linked list of
`struct ifaddrs` records, copies every non-null `ifa_name` into an OCaml string,
conses it onto an OCaml list and finally calls `freeifaddrs`.

Embedding:
* a `char` is a byte, `Fin 256`; a `char *` is `Option (List Byte)`: `none` is
  `NULL`, `some buf` points at the bytes `buf` (the memory from the pointer on);
* a `struct ifaddrs *` is the inductive `ifaddrs_ptr`: `NULL`, or a record with
  its `ifa_next` pointer and its other fields;
* the C library is explicit state (`OS`): what `getifaddrs` will deliver and the
  log of the arguments `freeifaddrs` has been called with;
* an OCaml `string` is the list of its bytes, an OCaml `string list` a `List`
  of those (`Val_emptylist` is `[]`, a size-2 tag-0 block is a cons cell);
* the OCaml runtime is explicit state too (`Runtime`): for each allocation to come,
  whether it fits, starts a collection or fails. A collection walks the chain of
  local-roots blocks that `CAMLparam1`, `CAMLlocal2` and `CAMLlocal1` build
  (`local_roots`); the three blocks are stack variables of `interface_list`, and the
  block of `CAMLlocal1( ml_s )`, declared in the loop body, is the same stack slot in
  every iteration;
* a call has one of three ends (`call_end`): it returns a list, an allocation fails
  (the runtime raises `Out_of_memory` or ends the process), or a collection never
  ends, so the call never returns.
-/

namespace VyosUtils

/-! ## Data model -/

/-- One C `char`. -/
abbrev Byte := Fin 256

/-- A `struct sockaddr` (only carried around, never read by `interface_list`). -/
structure sockaddr where
  sa_family : Nat
  sa_data : List Byte
deriving DecidableEq

/-- A `struct ifaddrs *` as declared in `<ifaddrs.h>`: either `NULL` or a pointer to a
record holding `ifa_next`, `ifa_name`, `ifa_flags`, `ifa_addr`, `ifa_netmask`,
`ifa_ifu` (broadcast or destination address) and `ifa_data`. -/
inductive ifaddrs_ptr where
  | NULL : ifaddrs_ptr
  | node (ifa_next : ifaddrs_ptr) (ifa_name : Option (List Byte)) (ifa_flags : Nat)
      (ifa_addr : Option sockaddr) (ifa_netmask : Option sockaddr)
      (ifa_ifu : Option sockaddr) (ifa_data : Option (List Byte)) : ifaddrs_ptr
deriving DecidableEq

/-- An OCaml `string`: its bytes. -/
abbrev ml_string := List Byte

/-- An OCaml `string list` value. -/
abbrev value := List ml_string

/-- The OCaml value `[]`. -/
def Val_emptylist : value := []

/-- The C library as seen by `interface_list`: the outcome the next `getifaddrs` call
has (`none`: it fails; `some head`: it succeeds and delivers the list `head`), and the
arguments of the `freeifaddrs` calls made so far, oldest first. -/
structure OS where
  getifaddrs_outcome : Option ifaddrs_ptr
  freeifaddrs_calls : List ifaddrs_ptr
deriving DecidableEq

/-- The three `struct caml__roots_block` variables the macros of `<caml/memory.h>` declare
on the stack of `interface_list`: `caml__roots_unit` by `CAMLparam1( unit )`,
`caml__roots_cli` by `CAMLlocal2( cli, cons )` and `caml__roots_ml_s` by
`CAMLlocal1( ml_s )`. -/
inductive roots_block where
  | caml__roots_unit
  | caml__roots_cli
  | caml__roots_ml_s
deriving DecidableEq, Fintype

/-- The chain of local roots: the runtime variable `caml_local_roots` and the `next`
field of each of the three blocks. `none` stands for `caml__frame`, the chain the caller
had on entry, which ends. -/
structure local_roots where
  caml_local_roots : Option roots_block
  next_unit : Option roots_block
  next_cli : Option roots_block
  next_ml_s : Option roots_block
deriving DecidableEq

/-- What the runtime does at one allocation: the block fits into the heap as it is; or a
collection runs first; or no memory can be had. -/
inductive alloc_event where
  | fits
  | collects
  | fails
deriving DecidableEq

/-- The state of the OCaml heap, as far as `interface_list` can tell: what happens at each
of the allocations to come, in order. After the last entry every allocation fits. -/
abbrev Runtime := List alloc_event

/-- How a piece of code that allocates ends: with a result, with the runtime leaving it
on an allocation failure, or inside a collection that never ends. Each carries the state
of the runtime at that point. -/
inductive exec (α : Type) where
  | ok (a : α) (rt : Runtime)
  | out_of_memory (rt : Runtime)
  | never_ends (rt : Runtime)
deriving DecidableEq

/-- How a call of `interface_list` ends. -/
inductive call_end where
  | returned (v : value)
  | out_of_memory
  | never_returns
deriving DecidableEq

/-- A call of `interface_list`: how it ends, and the states of the C library and of the
runtime at that point. -/
structure call_result where
  outcome : call_end
  os : OS
  runtime : Runtime
deriving DecidableEq

/-! ## Library primitives -/

/-- Stub of the C library call `getifaddrs(&ifaddr)` of `<ifaddrs.h>`: the return code,
the content of the pointer variable afterwards and the state afterwards. On failure it
returns `-1` and leaves the pointer variable as it was; on success it returns `0` and
stores the list head in it. -/
def getifaddrs (os : OS) (ifap : ifaddrs_ptr) : Int × ifaddrs_ptr × OS :=
  match os.getifaddrs_outcome with
  | none => (-1, ifap, os)
  | some head => (0, head, os)

/-- Stub of the C library call `freeifaddrs(ifa)` of `<ifaddrs.h>`: the call is recorded
in the log. -/
def freeifaddrs (os : OS) (ifa : ifaddrs_ptr) : OS :=
  ⟨os.getifaddrs_outcome, os.freeifaddrs_calls ++ [ifa]⟩

/-- C `strlen`: the number of bytes before the first zero byte. -/
def strlen : List Byte → Nat
  | [] => 0
  | b :: rest => if b = 0 then 0 else strlen rest + 1

/-- The `next` field of a roots block. -/
def roots_next (r : local_roots) : roots_block → Option roots_block
  | .caml__roots_unit => r.next_unit
  | .caml__roots_cli => r.next_cli
  | .caml__roots_ml_s => r.next_ml_s

/-- The macro `CAMLxparam1` (and `CAMLxparam2`) of `<caml/memory.h>` for the block `b`:
`b.next = caml_local_roots; caml_local_roots = &b;`. -/
def CAMLxparam (b : roots_block) (r : local_roots) : local_roots :=
  match b with
  | .caml__roots_unit => ⟨some b, r.caml_local_roots, r.next_cli, r.next_ml_s⟩
  | .caml__roots_cli => ⟨some b, r.next_unit, r.caml_local_roots, r.next_ml_s⟩
  | .caml__roots_ml_s => ⟨some b, r.next_unit, r.next_cli, r.caml_local_roots⟩

/-- The macro `CAMLparam1( unit )`: it links the block `caml__roots_unit`. -/
def CAMLparam1 (r : local_roots) : local_roots :=
  CAMLxparam .caml__roots_unit r

/-- The macro `CAMLlocal2( cli, cons )`: it links the one block `caml__roots_cli`. -/
def CAMLlocal2 (r : local_roots) : local_roots :=
  CAMLxparam .caml__roots_cli r

/-- The macro `CAMLlocal1( ml_s )`: it links the block `caml__roots_ml_s`. -/
def CAMLlocal1 (r : local_roots) : local_roots :=
  CAMLxparam .caml__roots_ml_s r

/-- The chain on entry of `interface_list`: `caml_local_roots` is the chain of the caller
and no block of `interface_list` is linked. -/
def roots_on_entry : local_roots :=
  ⟨none, none, none, none⟩

/-- The pointer the collector holds after `n` steps `lr = lr->next` from `p`. -/
def walk_roots (r : local_roots) : Nat → Option roots_block → Option roots_block
  | 0, p => p
  | _ + 1, none => none
  | n + 1, some b => walk_roots r n (roots_next r b)

/-- Whether the collector's loop `for (lr = caml_local_roots; lr != NULL; lr = lr->next)`
over the chain ends. There are three blocks, so a walk that has not left them after three
steps is in a cycle (`scan_ends_iff`). -/
def scan_ends (r : local_roots) : Bool :=
  (walk_roots r 3 r.caml_local_roots).isNone

/-- An allocation by the runtime that yields `a` when it succeeds: it takes the next
event of the runtime. A collection ends only if the walk over the local roots does. -/
def allocate {α : Type} (a : α) (roots : local_roots) : Runtime → exec α
  | [] => .ok a []
  | .fits :: rt => .ok a rt
  | .collects :: rt => if scan_ends roots then .ok a rt else .never_ends rt
  | .fails :: rt => .out_of_memory rt

/-- The OCaml runtime call `caml_alloc(wosize, tag)` of `<caml/alloc.h>`: a fresh block,
whose fields `Store_field` sets afterwards. -/
def caml_alloc (_wosize _tag : Nat) (roots : local_roots) (rt : Runtime) : exec Unit :=
  allocate () roots rt

/-- The OCaml runtime call `caml_copy_string(s)` of `<caml/alloc.h>`: a fresh OCaml string
of length `strlen s` holding the first `strlen s` bytes of `s`. -/
def caml_copy_string (s : List Byte) (roots : local_roots) (rt : Runtime) :
    exec ml_string :=
  allocate (s.take (strlen s)) roots rt

/-! ## The function -/

/-- The `for (ifa = ifaddr; ifa != NULL; ifa = ifa->ifa_next)` loop of `interface_list`,
with the chain of local roots, the runtime and the accumulator `cli`. -/
def interface_list_loop : ifaddrs_ptr → local_roots → Runtime → value → exec value
  | .NULL, _, rt, cli => .ok cli rt
  | .node ifa_next ifa_name _ _ _ _ _, roots, rt, cli =>
    match ifa_name with
    | none => interface_list_loop ifa_next roots rt cli
    | some name =>
      let roots := CAMLlocal1 roots
      match caml_alloc 2 0 roots rt with
      | .out_of_memory rt => .out_of_memory rt
      | .never_ends rt => .never_ends rt
      | .ok _ rt =>
        match caml_copy_string name roots rt with
        | .out_of_memory rt => .out_of_memory rt
        | .never_ends rt => .never_ends rt
        | .ok ml_s rt =>
          let cons := ml_s :: cli
          interface_list_loop ifa_next roots rt cons

/-- The function `interface_list`. `ifaddr` is the initial content of the uninitialised
local variable of that name, `os` and `rt` are the states of the C library and of the
OCaml runtime on entry. `CAMLreturn` sets `caml_local_roots` back to `caml__frame`. -/
def interface_list (_unit : Unit) (os : OS) (rt : Runtime) (ifaddr : ifaddrs_ptr) :
    call_result :=
  let roots := CAMLparam1 roots_on_entry
  let roots := CAMLlocal2 roots
  let cli := Val_emptylist
  match getifaddrs os ifaddr with
  | (rc, ifaddr, os) =>
    if rc = -1 then
      ⟨.returned cli, os, rt⟩
    else
      match interface_list_loop ifaddr roots rt cli with
      | .out_of_memory rt => ⟨.out_of_memory, os, rt⟩
      | .never_ends rt => ⟨.never_returns, os, rt⟩
      | .ok cli rt =>
        let os := freeifaddrs os ifaddr
        ⟨.returned cli, os, rt⟩

/-! ## Vocabulary of the specification -/

/-- The `ifa_name` fields of the records of a list, in head-to-tail traversal order. -/
def name_fields : ifaddrs_ptr → List (Option (List Byte))
  | .NULL => []
  | .node ifa_next ifa_name _ _ _ _ _ => ifa_name :: name_fields ifa_next

/-- The C string a non-null `char *` denotes: the bytes up to the terminating zero. -/
def c_str (buf : List Byte) : List Byte :=
  buf.takeWhile (fun b => b ≠ 0)

/-- The names of the records whose name field is not null, in traversal order. -/
def non_null_names (head : ifaddrs_ptr) : List (List Byte) :=
  (name_fields head).filterMap (fun p => p.map c_str)

/-- The name fields of a list read as C strings (`none` for a null pointer). -/
def names_seen (head : ifaddrs_ptr) : List (Option (List Byte)) :=
  (name_fields head).map (fun p => p.map c_str)

/-- The number of records of a list whose name field is not null. -/
def named_count : ifaddrs_ptr → Nat
  | .NULL => 0
  | .node ifa_next ifa_name _ _ _ _ _ =>
    (if ifa_name.isSome then 1 else 0) + named_count ifa_next

/-- The number of records of a list whose name field is not null and spells `n`. -/
def records_named (n : List Byte) : ifaddrs_ptr → Nat
  | .NULL => 0
  | .node ifa_next ifa_name _ _ _ _ _ =>
    (if ifa_name.map c_str = some n then 1 else 0) + records_named n ifa_next

/-- The number of records of a list whose name is not null and has `strlen` zero. -/
def empty_name_records : ifaddrs_ptr → Nat
  | .NULL => 0
  | .node ifa_next ifa_name _ _ _ _ _ =>
    (match ifa_name with
      | none => 0
      | some buf => if strlen buf = 0 then 1 else 0) + empty_name_records ifa_next

/-- The list with a new record put in front of the record at position `k` (at the end
when the list has at most `k` records). -/
def insert_record (ifa_name : Option (List Byte)) (ifa_flags : Nat)
    (ifa_addr ifa_netmask ifa_ifu : Option sockaddr) (ifa_data : Option (List Byte)) :
    Nat → ifaddrs_ptr → ifaddrs_ptr
  | 0, p => .node p ifa_name ifa_flags ifa_addr ifa_netmask ifa_ifu ifa_data
  | _ + 1, .NULL => .node .NULL ifa_name ifa_flags ifa_addr ifa_netmask ifa_ifu ifa_data
  | k + 1, .node next n f a m u d =>
    .node (insert_record ifa_name ifa_flags ifa_addr ifa_netmask ifa_ifu ifa_data k next)
      n f a m u d

/-- The list without its record at position `k` (unchanged when there is none). -/
def remove_record : Nat → ifaddrs_ptr → ifaddrs_ptr
  | _, .NULL => .NULL
  | 0, .node next _ _ _ _ _ _ => next
  | k + 1, .node next n f a m u d => .node (remove_record k next) n f a m u d

/-- A record with the given name and next pointer, all other fields zero or null. -/
def plain (ifa_name : Option (List Byte)) (ifa_next : ifaddrs_ptr) : ifaddrs_ptr :=
  .node ifa_next ifa_name 0 none none none none

/-- The bytes of the name `lo`, without terminator. -/
def lo : List Byte := [108, 111]

/-- The bytes of the name `eth0`, without terminator. -/
def eth0 : List Byte := [101, 116, 104, 48]

/-- The bytes of the name `wlan0`, without terminator. -/
def wlan0 : List Byte := [119, 108, 97, 110, 48]

/-- The list of the records `lo`, `eth0`, `wlan0` of scenario 3. -/
def three_records : ifaddrs_ptr :=
  plain (some (lo ++ [0])) (plain (some (eth0 ++ [0])) (plain (some (wlan0 ++ [0])) .NULL))

/-- The list of the records `lo`, `eth0`, `eth0`, `wlan0` of scenario 4. -/
def duplicate_records : ifaddrs_ptr :=
  plain (some (lo ++ [0])) (plain (some (eth0 ++ [0])) (plain (some (eth0 ++ [0]))
    (plain (some (wlan0 ++ [0])) .NULL)))

/-- The list of the records `lo`, a null name, `eth0` of scenario 5. -/
def null_name_records : ifaddrs_ptr :=
  plain (some (lo ++ [0])) (plain none (plain (some (eth0 ++ [0])) .NULL))

/-- The list of the records `lo`, `eth0`. -/
def two_records : ifaddrs_ptr :=
  plain (some (lo ++ [0])) (plain (some (eth0 ++ [0])) .NULL)

/-- The list of a record whose name points at a zero byte and the record `lo`. -/
def empty_name_then_lo : ifaddrs_ptr :=
  plain (some [0]) (plain (some (lo ++ [0])) .NULL)

/-- The chain inside `interface_list` after `CAMLparam1( unit )` and
`CAMLlocal2( cli, cons )`, before the loop. -/
def roots_before_loop : local_roots :=
  CAMLlocal2 (CAMLparam1 roots_on_entry)

/-! ## Auxiliary facts -/

theorem take_strlen_eq_c_str (s : List Byte) : s.take (strlen s) = c_str s := by
  induction s with
  | nil => rfl
  | cons b rest ih =>
    by_cases hb : b = 0
    · simp [strlen, c_str, hb]
    · simp only [strlen, hb, if_false, List.take_succ_cons, ih, c_str]
      simp [List.takeWhile_cons, hb]

theorem c_str_length (s : List Byte) : (c_str s).length = strlen s := by
  induction s with
  | nil => rfl
  | cons b rest ih =>
    by_cases hb : b = 0
    · simp [strlen, c_str, hb]
    · have h : c_str (b :: rest) = b :: c_str rest := by
        simp [c_str, List.takeWhile_cons, hb]
      rw [h, List.length_cons, ih]
      simp [strlen, hb]

theorem c_str_no_zero (s : List Byte) : ∀ b ∈ c_str s, b ≠ 0 := by
  intro b hb
  have := List.mem_takeWhile_imp hb
  simpa using this

theorem c_str_split (s : List Byte) :
    ∃ rest, s = c_str s ++ rest ∧ (rest = [] ∨ ∃ tl, rest = 0 :: tl) := by
  induction s with
  | nil => exact ⟨[], rfl, Or.inl rfl⟩
  | cons b tl ih =>
    by_cases hb : b = 0
    · exact ⟨b :: tl, by simp [c_str, hb], Or.inr ⟨tl, by rw [hb]⟩⟩
    · obtain ⟨rest, h1, h2⟩ := ih
      refine ⟨rest, ?_, h2⟩
      have : c_str (b :: tl) = b :: c_str tl := by simp [c_str, List.takeWhile_cons, hb]
      rw [this, List.cons_append, ← h1]

/-! ### The walk of the collector -/

theorem walk_roots_none (r : local_roots) (n : Nat) : walk_roots r n none = none := by
  cases n <;> rfl

theorem walk_roots_succ (r : local_roots) (n : Nat) (p : Option roots_block) :
    walk_roots r (n + 1) p = walk_roots r n (walk_roots r 1 p) := by
  cases p with
  | none => simp [walk_roots_none]
  | some b => simp [walk_roots]

theorem walk_roots_add (r : local_roots) (m n : Nat) (p : Option roots_block) :
    walk_roots r (m + n) p = walk_roots r m (walk_roots r n p) := by
  induction n generalizing p with
  | zero => rfl
  | succ n ih =>
    rw [← Nat.add_assoc, walk_roots_succ, ih, ← walk_roots_succ]

theorem walk_roots_three_step :
    ∀ hd nu nc nm p : Option roots_block,
      walk_roots ⟨hd, nu, nc, nm⟩ 3 p ≠ none →
        walk_roots ⟨hd, nu, nc, nm⟩ 3 (walk_roots ⟨hd, nu, nc, nm⟩ 1 p) ≠ none := by
  decide

theorem walk_roots_never_none (r : local_roots) (p : Option roots_block)
    (h : walk_roots r 3 p ≠ none) (n : Nat) : walk_roots r 3 (walk_roots r n p) ≠ none := by
  induction n generalizing p with
  | zero => exact h
  | succ n ih =>
    have e : walk_roots r (n + 1) p = walk_roots r n (walk_roots r 1 p) :=
      walk_roots_succ r n p
    rw [e]
    obtain ⟨hd, nu, nc, nm⟩ := r
    exact ih _ (walk_roots_three_step hd nu nc nm p h)

/-- The collector's walk reaches the end of the chain after some number of steps exactly
when `scan_ends` says so. -/
theorem scan_ends_iff (r : local_roots) :
    scan_ends r = true ↔ ∃ n, walk_roots r n r.caml_local_roots = none := by
  constructor
  · intro h
    exact ⟨3, by simpa [scan_ends] using h⟩
  · rintro ⟨n, hn⟩
    by_contra hc
    have h3 : walk_roots r 3 r.caml_local_roots ≠ none := by
      simpa [scan_ends] using hc
    have := walk_roots_never_none r _ h3 n
    rw [hn, walk_roots_none] at this
    exact this rfl

theorem scan_ends_first_named : scan_ends (CAMLlocal1 roots_before_loop) = true := by
  decide

theorem scan_ends_second_named (r : local_roots) :
    scan_ends (CAMLlocal1 (CAMLlocal1 r)) = false := by
  obtain ⟨hd, nu, nc, nm⟩ := r
  rfl

theorem CAMLlocal1_twice (r : local_roots) :
    CAMLlocal1 (CAMLlocal1 (CAMLlocal1 r)) = CAMLlocal1 (CAMLlocal1 r) := by
  obtain ⟨hd, nu, nc, nm⟩ := r
  rfl

/-! ### Allocation -/

theorem allocate_ok {α : Type} (a b : α) (roots : local_roots) (rt rt2 : Runtime)
    (h : allocate a roots rt = .ok b rt2) : b = a := by
  cases rt with
  | nil => simp [allocate] at h; exact h.1.symm
  | cons e rt =>
    cases e with
    | fits => simp [allocate] at h; exact h.1.symm
    | collects =>
      by_cases hs : scan_ends roots = true
      · simp [allocate, hs] at h; exact h.1.symm
      · simp [allocate, hs] at h
    | fails => simp [allocate] at h

theorem allocate_fits {α : Type} (a : α) (roots : local_roots) (rt : Runtime)
    (h : ∀ e ∈ rt, e = alloc_event.fits) : allocate a roots rt = .ok a rt.tail := by
  cases rt with
  | nil => rfl
  | cons e rt =>
    have := h e (List.mem_cons_self _ _)
    subst this
    rfl

theorem allocate_scan_ends {α : Type} (a : α) (roots : local_roots) (rt : Runtime)
    (hs : scan_ends roots = true) (h : ∀ e ∈ rt.take 1, e ≠ alloc_event.fails) :
    allocate a roots rt = .ok a rt.tail := by
  cases rt with
  | nil => rfl
  | cons e rt =>
    cases e with
    | fits => rfl
    | collects => simp [allocate, hs]
    | fails => simp at h

/-! ### The loop -/

theorem interface_list_loop_ok (p : ifaddrs_ptr) (roots : local_roots) (rt rt2 : Runtime)
    (cli cli2 : value) (h : interface_list_loop p roots rt cli = .ok cli2 rt2) :
    cli2 = (non_null_names p).reverse ++ cli := by
  induction p generalizing roots rt cli with
  | NULL =>
    simp only [interface_list_loop, exec.ok.injEq] at h
    simp [non_null_names, name_fields, h.1]
  | node next name f a m u d ih =>
    cases name with
    | none =>
      simp only [interface_list_loop] at h
      rw [ih _ _ _ h]
      simp [non_null_names, name_fields]
    | some buf =>
      simp only [interface_list_loop] at h
      cases hA : caml_alloc 2 0 (CAMLlocal1 roots) rt with
      | out_of_memory r1 => simp [hA] at h
      | never_ends r1 => simp [hA] at h
      | ok x r1 =>
        simp only [hA] at h
        cases hB : caml_copy_string buf (CAMLlocal1 roots) r1 with
        | out_of_memory r2 => simp [hB] at h
        | never_ends r2 => simp [hB] at h
        | ok s r2 =>
          simp only [hB] at h
          have hs : s = c_str buf := by
            rw [← take_strlen_eq_c_str]
            exact allocate_ok _ _ _ _ _ hB
          rw [ih _ _ _ h, hs]
          simp [non_null_names, name_fields]

theorem interface_list_loop_fits (p : ifaddrs_ptr) (roots : local_roots) (rt : Runtime)
    (cli : value) (h : ∀ e ∈ rt, e = alloc_event.fits) :
    interface_list_loop p roots rt cli
      = .ok ((non_null_names p).reverse ++ cli) (rt.drop (2 * named_count p)) := by
  induction p generalizing roots rt cli with
  | NULL => simp [interface_list_loop, non_null_names, name_fields, named_count]
  | node next name f a m u d ih =>
    cases name with
    | none =>
      simp only [interface_list_loop, ih _ _ _ h]
      simp [non_null_names, name_fields, named_count]
    | some buf =>
      have h1 : ∀ e ∈ rt.tail, e = alloc_event.fits :=
        fun e he => h e (List.mem_of_mem_tail he)
      have h2 : ∀ e ∈ rt.tail.tail, e = alloc_event.fits :=
        fun e he => h1 e (List.mem_of_mem_tail he)
      simp only [interface_list_loop, caml_alloc, caml_copy_string, allocate_fits _ _ _ h,
        allocate_fits _ _ _ h1, ih _ _ _ h2, take_strlen_eq_c_str]
      simp [non_null_names, name_fields, named_count, Nat.mul_add, Nat.add_comm]
      rw [show 1 + (1 + 2 * named_count next) = 2 + 2 * named_count next by omega]

theorem interface_list_loop_insert_null (k flags : Nat) (a m u : Option sockaddr)
    (d : Option (List Byte)) (p : ifaddrs_ptr) (roots : local_roots) (rt : Runtime)
    (cli : value) :
    interface_list_loop (insert_record none flags a m u d k p) roots rt cli
      = interface_list_loop p roots rt cli := by
  induction k generalizing p roots rt cli with
  | zero => simp [insert_record, interface_list_loop]
  | succ k ih =>
    cases p with
    | NULL => simp [insert_record, interface_list_loop]
    | node next n f a2 m2 u2 d2 =>
      cases n with
      | none => simp only [insert_record, interface_list_loop, ih]
      | some buf => simp only [insert_record, interface_list_loop, ih]

theorem interface_list_loop_remove_null (k : Nat) (p : ifaddrs_ptr)
    (h : (name_fields p)[k]? = some none) (roots : local_roots) (rt : Runtime)
    (cli : value) :
    interface_list_loop (remove_record k p) roots rt cli
      = interface_list_loop p roots rt cli := by
  induction k generalizing p roots rt cli with
  | zero =>
    cases p with
    | NULL => simp [name_fields] at h
    | node next n f a m u d =>
      simp only [name_fields, List.getElem?_cons_zero, Option.some.injEq] at h
      subst h
      simp [remove_record, interface_list_loop]
  | succ k ih =>
    cases p with
    | NULL => simp [name_fields] at h
    | node next n f a m u d =>
      simp only [name_fields, List.getElem?_cons_succ] at h
      cases n with
      | none => simp only [remove_record, interface_list_loop, ih next h]
      | some buf => simp only [remove_record, interface_list_loop, ih next h]

theorem interface_list_loop_names_seen (p q : ifaddrs_ptr)
    (h : names_seen p = names_seen q) (roots : local_roots) (rt : Runtime) (cli : value) :
    interface_list_loop p roots rt cli = interface_list_loop q roots rt cli := by
  induction p generalizing q roots rt cli with
  | NULL =>
    cases q with
    | NULL => rfl
    | node next n f a m u d => simp [names_seen, name_fields] at h
  | node next n f a m u d ih =>
    cases q with
    | NULL => simp [names_seen, name_fields] at h
    | node next2 n2 f2 a2 m2 u2 d2 =>
      simp only [names_seen, name_fields, List.map_cons, List.cons.injEq] at h
      obtain ⟨hn, ht⟩ := h
      have e := ih next2 ht
      cases n with
      | none =>
        cases n2 with
        | none => simp only [interface_list_loop, e]
        | some b2 => simp at hn
      | some b =>
        cases n2 with
        | none => simp at hn
        | some b2 =>
          have hb : c_str b = c_str b2 := by simpa using hn
          simp only [interface_list_loop, caml_copy_string, take_strlen_eq_c_str, hb, e]

theorem interface_list_loop_cyclic (p : ifaddrs_ptr) (r : local_roots) (rt : Runtime)
    (cli : value) (h : 1 ≤ named_count p) :
    interface_list_loop p (CAMLlocal1 r) (.collects :: rt) cli = .never_ends rt := by
  induction p generalizing cli with
  | NULL => simp [named_count] at h
  | node next n f a m u d ih =>
    cases n with
    | none =>
      simp only [interface_list_loop]
      exact ih _ (by simpa [named_count] using h)
    | some buf =>
      simp [interface_list_loop, caml_alloc, allocate, scan_ends_second_named]

theorem interface_list_loop_second_named (p : ifaddrs_ptr) (r : local_roots) (rt : Runtime)
    (cli : value) (h : 2 ≤ named_count p) :
    interface_list_loop p r (.fits :: .fits :: .collects :: rt) cli = .never_ends rt := by
  induction p generalizing cli with
  | NULL => simp [named_count] at h
  | node next n f a m u d ih =>
    cases n with
    | none =>
      simp only [interface_list_loop]
      exact ih _ (by simpa [named_count] using h)
    | some buf =>
      have h1 : 1 ≤ named_count next := by
        simp [named_count] at h
        omega
      simp only [interface_list_loop, caml_alloc, caml_copy_string, allocate]
      exact interface_list_loop_cyclic next r rt _ h1

theorem interface_list_loop_first_named (p : ifaddrs_ptr) (rt : Runtime) (cli : value)
    (h0 : ∀ e ∈ rt.take 2, e ≠ alloc_event.fails)
    (h1 : ∀ e ∈ rt.drop 2, e = alloc_event.fits) :
    interface_list_loop p roots_before_loop rt cli
      = .ok ((non_null_names p).reverse ++ cli) (rt.drop (2 * named_count p)) := by
  induction p generalizing cli with
  | NULL => simp [interface_list_loop, non_null_names, name_fields, named_count]
  | node next n f a m u d ih =>
    cases n with
    | none =>
      simp only [interface_list_loop, ih]
      simp [non_null_names, name_fields, named_count]
    | some buf =>
      have ha : ∀ e ∈ rt.take 1, e ≠ alloc_event.fails := by
        intro e he
        apply h0 e
        cases rt with
        | nil => simp at he
        | cons x xs => simp at he; simp [he]
      have hb : ∀ e ∈ rt.tail.take 1, e ≠ alloc_event.fails := by
        intro e he
        apply h0 e
        cases rt with
        | nil => simp at he
        | cons x xs =>
          cases xs with
          | nil => simp at he
          | cons y ys => simp at he; simp [he]
      have hc : ∀ e ∈ rt.tail.tail, e = alloc_event.fits := by
        intro e he
        apply h1 e
        cases rt with
        | nil => simp at he
        | cons x xs =>
          cases xs with
          | nil => simp at he
          | cons y ys => simpa using he
      simp only [interface_list_loop, caml_alloc, caml_copy_string,
        allocate_scan_ends _ _ _ scan_ends_first_named ha,
        allocate_scan_ends _ _ _ scan_ends_first_named hb,
        interface_list_loop_fits _ _ _ _ hc, take_strlen_eq_c_str]
      simp [non_null_names, name_fields, named_count, Nat.mul_add, Nat.add_comm]
      rw [show 1 + (1 + 2 * named_count next) = 2 + 2 * named_count next by omega]

/-! ### Counting names -/

theorem length_non_null_names (head : ifaddrs_ptr) :
    (non_null_names head).length = named_count head := by
  induction head with
  | NULL => rfl
  | node next n f a m u d ih =>
    simp only [non_null_names] at ih
    cases n with
    | none => simp [non_null_names, name_fields, named_count, ih]
    | some buf =>
      simp [non_null_names, name_fields, named_count, ih]
      omega

theorem count_non_null_names (n : List Byte) (head : ifaddrs_ptr) :
    (non_null_names head).count n = records_named n head := by
  induction head with
  | NULL => rfl
  | node next nm f a m u d ih =>
    simp only [non_null_names] at ih
    cases nm with
    | none => simp [non_null_names, name_fields, records_named, ih]
    | some buf =>
      by_cases hb : c_str buf = n
      · simp [non_null_names, name_fields, records_named, ih, hb]
        omega
      · simp [non_null_names, name_fields, records_named, ih, hb, List.count_cons]

theorem strlen_eq_zero_iff (buf : List Byte) : strlen buf = 0 ↔ c_str buf = [] := by
  rw [← c_str_length]
  exact List.length_eq_zero

theorem count_nil_non_null_names (head : ifaddrs_ptr) :
    (non_null_names head).count [] = empty_name_records head := by
  induction head with
  | NULL => rfl
  | node next nm f a m u d ih =>
    simp only [non_null_names] at ih
    cases nm with
    | none => simp [non_null_names, name_fields, empty_name_records, ih]
    | some buf =>
      by_cases hb : c_str buf = []
      · have h0 : strlen buf = 0 := (strlen_eq_zero_iff buf).2 hb
        simp [non_null_names, name_fields, empty_name_records, ih, hb, h0]
        omega
      · have h0 : ¬ strlen buf = 0 := fun h => hb ((strlen_eq_zero_iff buf).1 h)
        simp [non_null_names, name_fields, empty_name_records, ih, hb, h0, List.count_cons]

theorem mem_non_null_names (E : List Byte) (head : ifaddrs_ptr)
    (h : E ∈ non_null_names head) : ∃ buf, some buf ∈ name_fields head ∧ E = c_str buf := by
  simp only [non_null_names, List.mem_filterMap] at h
  obtain ⟨p, hp, hE⟩ := h
  cases p with
  | none => simp at hE
  | some buf =>
    refine ⟨buf, hp, ?_⟩
    simpa using hE.symm

/-! ### The call -/

theorem interface_list_failure (v : Unit) (g : ifaddrs_ptr) (freed : List ifaddrs_ptr)
    (rt : Runtime) :
    interface_list v ⟨none, freed⟩ rt g = ⟨.returned [], ⟨none, freed⟩, rt⟩ := by
  simp [interface_list, getifaddrs, Val_emptylist]

theorem interface_list_success (v : Unit) (head g : ifaddrs_ptr)
    (freed : List ifaddrs_ptr) (rt : Runtime) :
    interface_list v ⟨some head, freed⟩ rt g
      = (match interface_list_loop head roots_before_loop rt [] with
        | .out_of_memory rt2 => ⟨.out_of_memory, ⟨some head, freed⟩, rt2⟩
        | .never_ends rt2 => ⟨.never_returns, ⟨some head, freed⟩, rt2⟩
        | .ok cli rt2 => ⟨.returned cli, ⟨some head, freed ++ [head]⟩, rt2⟩) := by
  simp [interface_list, getifaddrs, freeifaddrs, Val_emptylist, roots_before_loop]

/-- A call that returns after a successful enumeration returns the reverse of the non-null
names and has released the list once. -/
theorem interface_list_returned (v : Unit) (head g : ifaddrs_ptr)
    (freed : List ifaddrs_ptr) (rt : Runtime) (l : value)
    (h : (interface_list v ⟨some head, freed⟩ rt g).outcome = .returned l) :
    l = (non_null_names head).reverse
      ∧ (interface_list v ⟨some head, freed⟩ rt g).os = ⟨some head, freed ++ [head]⟩ := by
  rw [interface_list_success] at h ⊢
  cases hL : interface_list_loop head roots_before_loop rt [] with
  | out_of_memory r2 => simp [hL] at h
  | never_ends r2 => simp [hL] at h
  | ok cli r2 =>
    simp only [hL, call_end.returned.injEq] at h
    have := interface_list_loop_ok _ _ _ _ _ _ hL
    simp only [List.append_nil] at this
    exact ⟨by rw [← h, this], rfl⟩

/-- A call after a successful enumeration returns the reverse of the non-null names when
no allocation fails and no collection runs after the first two allocations (those for the
first named record). -/
theorem interface_list_returns (v : Unit) (head g : ifaddrs_ptr)
    (freed : List ifaddrs_ptr) (rt : Runtime)
    (h0 : ∀ e ∈ rt.take 2, e ≠ alloc_event.fails)
    (h1 : ∀ e ∈ rt.drop 2, e = alloc_event.fits) :
    interface_list v ⟨some head, freed⟩ rt g
      = ⟨.returned (non_null_names head).reverse, ⟨some head, freed ++ [head]⟩,
          rt.drop (2 * named_count head)⟩ := by
  rw [interface_list_success, interface_list_loop_first_named _ _ _ h0 h1]
  simp

/-- A call on a list with two named records or more never returns when the runtime starts
a collection at the third allocation: the chain of local roots is cyclic from the second
`CAMLlocal1( ml_s )` on. -/
theorem interface_list_never_returns (v : Unit) (head g : ifaddrs_ptr)
    (freed : List ifaddrs_ptr) (rt : Runtime) (h : 2 ≤ named_count head) :
    interface_list v ⟨some head, freed⟩ (.fits :: .fits :: .collects :: rt) g
      = ⟨.never_returns, ⟨some head, freed⟩, rt⟩ := by
  rw [interface_list_success, interface_list_loop_second_named _ _ _ _ h]

/-- Putting a null-named record (with any other fields) at any position of the OS list
changes neither how the call ends nor the runtime it leaves. -/
theorem interface_list_insert_null (v : Unit) (head g : ifaddrs_ptr)
    (freed : List ifaddrs_ptr) (rt : Runtime) (k flags : Nat) (a m u : Option sockaddr)
    (d : Option (List Byte)) :
    (interface_list v ⟨some (insert_record none flags a m u d k head), freed⟩ rt g).outcome
        = (interface_list v ⟨some head, freed⟩ rt g).outcome
      ∧ (interface_list v ⟨some (insert_record none flags a m u d k head), freed⟩ rt
          g).runtime = (interface_list v ⟨some head, freed⟩ rt g).runtime := by
  simp only [interface_list_success, interface_list_loop_insert_null]
  cases interface_list_loop head roots_before_loop rt [] <;> exact ⟨rfl, rfl⟩

/-- Taking away the record at position `k` when its name field is null changes neither
how the call ends nor the runtime it leaves. -/
theorem interface_list_remove_null (v : Unit) (head g : ifaddrs_ptr)
    (freed : List ifaddrs_ptr) (rt : Runtime) (k : Nat)
    (h : (name_fields head)[k]? = some none) :
    (interface_list v ⟨some (remove_record k head), freed⟩ rt g).outcome
        = (interface_list v ⟨some head, freed⟩ rt g).outcome
      ∧ (interface_list v ⟨some (remove_record k head), freed⟩ rt g).runtime
        = (interface_list v ⟨some head, freed⟩ rt g).runtime := by
  simp only [interface_list_success, interface_list_loop_remove_null k head h]
  cases interface_list_loop head roots_before_loop rt [] <;> exact ⟨rfl, rfl⟩

/-- Two calls that both return after the same successful enumeration return the same
list, whatever the runtime, the release log and `ifaddr` were at each. -/
theorem interface_list_returned_same (v : Unit) (head g1 g2 : ifaddrs_ptr)
    (freed1 freed2 : List ifaddrs_ptr) (rt1 rt2 : Runtime) (l1 l2 : value)
    (h1 : (interface_list v ⟨some head, freed1⟩ rt1 g1).outcome = .returned l1)
    (h2 : (interface_list v ⟨some head, freed2⟩ rt2 g2).outcome = .returned l2) :
    l1 = l2 := by
  rw [(interface_list_returned v head g1 freed1 rt1 l1 h1).1,
    (interface_list_returned v head g2 freed2 rt2 l2 h2).1]

/-- A call that returns after a successful enumeration returns a list with one element
for each record with a non-null name: its length is the number of those records, each
name occurs in it as often as records carry it, and it holds as many empty strings as
there are records with a non-null name of length zero. -/
theorem interface_list_returned_counts (v : Unit) (head g : ifaddrs_ptr)
    (freed : List ifaddrs_ptr) (rt : Runtime) (l : value)
    (h : (interface_list v ⟨some head, freed⟩ rt g).outcome = .returned l) :
    l.length = named_count head
      ∧ List.Perm l (non_null_names head)
      ∧ (∀ n : List Byte, l.count n = records_named n head)
      ∧ l.count [] = empty_name_records head := by
  rw [(interface_list_returned v head g freed rt l h).1]
  refine ⟨?_, List.reverse_perm _, fun n => ?_, ?_⟩
  · rw [List.length_reverse, length_non_null_names]
  · rw [List.count_reverse, count_non_null_names]
  · rw [List.count_reverse, count_nil_non_null_names]

/-! ## The claims -/

/-- C1 (the code falls short of it): for the records `lo`, `eth0`, `wlan0` the reverse of
the names is `[wlan0, eth0, lo]`, and the call returns it when every allocation fits; but
when the runtime starts a collection at the third allocation, the cons cell for `eth0`,
the call never returns and the list is not released. -/
theorem interface_list_three_records_never_returns :
    (non_null_names three_records).reverse = [wlan0, eth0, lo]
      ∧ interface_list () ⟨some three_records, []⟩ [] .NULL
        = ⟨.returned [wlan0, eth0, lo], ⟨some three_records, [three_records]⟩, []⟩
      ∧ interface_list () ⟨some three_records, []⟩ [.fits, .fits, .collects] .NULL
        = ⟨.never_returns, ⟨some three_records, []⟩, []⟩ := by
  decide

/-- C2: when the enumeration fails, `interface_list` returns the empty list whatever the
unset variable `ifaddr` holds, and when it succeeds with no record it returns the empty
list too; both in every state of the runtime. -/
theorem interface_list_empty_on_failure_or_no_record (v : Unit) (g : ifaddrs_ptr)
    (freed : List ifaddrs_ptr) (rt : Runtime) :
    (interface_list v ⟨none, freed⟩ rt g).outcome = .returned []
      ∧ (interface_list v ⟨some .NULL, freed⟩ rt g).outcome = .returned [] := by
  constructor
  · rw [interface_list_failure]
  · rw [interface_list_success]
    rfl

/-- C3 as stated fails: the enumeration succeeds with the one record `lo`, the allocation
of its name fails, and the call is left with no release call made. -/
theorem interface_list_no_release_on_out_of_memory :
    (interface_list () ⟨some (plain (some (lo ++ [0])) .NULL), []⟩ [.fits, .fails]
        .NULL).outcome = .out_of_memory
      ∧ (interface_list () ⟨some (plain (some (lo ++ [0])) .NULL), []⟩ [.fits, .fails]
        .NULL).os.freeifaddrs_calls = []
      ∧ (interface_list () ⟨some (plain (some (lo ++ [0])) .NULL), []⟩ [.fits, .fails]
        .NULL).os.freeifaddrs_calls.length ≠ ([] : List ifaddrs_ptr).length + 1 := by
  decide

/-- C3, amended: a call whose enumeration succeeds and which returns has added exactly one
entry to the log of release calls, the head the enumeration delivered; with the empty
list the call always returns, so the one entry is `NULL`; a call whose enumeration
succeeds and which an allocation failure ends has added none; a call whose enumeration
fails returns and has added none. -/
theorem interface_list_release_calls (v : Unit) (head g : ifaddrs_ptr)
    (freed : List ifaddrs_ptr) (rt : Runtime) :
    (∀ l, (interface_list v ⟨some head, freed⟩ rt g).outcome = .returned l →
        (interface_list v ⟨some head, freed⟩ rt g).os.freeifaddrs_calls = freed ++ [head]
          ∧ (interface_list v ⟨some head, freed⟩ rt g).os.freeifaddrs_calls.length
            = freed.length + 1)
      ∧ ((interface_list v ⟨some head, freed⟩ rt g).outcome = .out_of_memory →
          (interface_list v ⟨some head, freed⟩ rt g).os.freeifaddrs_calls = freed)
      ∧ ((interface_list v ⟨some .NULL, freed⟩ rt g).outcome = .returned []
          ∧ (interface_list v ⟨some .NULL, freed⟩ rt g).os.freeifaddrs_calls
            = freed ++ [.NULL])
      ∧ ((interface_list v ⟨none, freed⟩ rt g).outcome = .returned []
          ∧ (interface_list v ⟨none, freed⟩ rt g).os.freeifaddrs_calls = freed) := by
  refine ⟨fun l h => ?_, fun h => ?_, ?_, ?_⟩
  · rw [(interface_list_returned v head g freed rt l h).2]
    simp
  · rw [interface_list_success] at h ⊢
    cases hL : interface_list_loop head roots_before_loop rt [] with
    | out_of_memory r2 => rfl
    | never_ends r2 => simp [hL] at h
    | ok cli r2 => simp [hL] at h
  · rw [interface_list_success]
    exact ⟨rfl, rfl⟩
  · rw [interface_list_failure]
    exact ⟨rfl, rfl⟩

/-- Witness of C3, amended: the call on `lo`, `eth0`, `wlan0` with a collection at the
first allocation returns, and its one release call is on the head of the list. -/
theorem interface_list_release_calls_witness :
    (interface_list () ⟨some three_records, [.NULL]⟩ [.collects] .NULL).outcome
        = .returned [wlan0, eth0, lo]
      ∧ (interface_list () ⟨some three_records, [.NULL]⟩ [.collects]
          .NULL).os.freeifaddrs_calls = [.NULL] ++ [three_records] :=
  ⟨by decide,
   ((interface_list_release_calls () three_records .NULL [.NULL] [.collects]).1
      [wlan0, eth0, lo] (by decide)).1⟩

/-- C4 (the code falls short of it): for the records `lo`, `eth0`, `eth0`, `wlan0` the
names are returned, `eth0` twice, when every allocation fits; but when the runtime starts
a collection at the fourth allocation, the string for the first `eth0`, the call never
returns, so no multiset of names is returned. -/
theorem interface_list_duplicate_records_never_returns :
    (interface_list () ⟨some duplicate_records, []⟩ [] .NULL).outcome
        = .returned [wlan0, eth0, eth0, lo]
      ∧ records_named eth0 duplicate_records = 2
      ∧ (interface_list () ⟨some duplicate_records, []⟩
          [.fits, .fits, .fits, .collects] .NULL).outcome = .never_returns := by
  decide

/-- C5 (the code falls short of it): the list null, `lo`, `eth0`, null, `wlan0` has three
records with a name; the call returns three elements when every allocation fits, but
never returns when the runtime starts a collection at the fifth allocation, the cons
cell for `wlan0`. -/
theorem interface_list_three_named_never_returns :
    named_count (plain none (plain (some (lo ++ [0])) (plain (some (eth0 ++ [0]))
        (plain none (plain (some (wlan0 ++ [0])) .NULL))))) = 3
      ∧ (interface_list () ⟨some (plain none (plain (some (lo ++ [0]))
          (plain (some (eth0 ++ [0])) (plain none (plain (some (wlan0 ++ [0])) .NULL))))),
          []⟩ [] .NULL).outcome = .returned [wlan0, eth0, lo]
      ∧ (interface_list () ⟨some (plain none (plain (some (lo ++ [0]))
          (plain (some (eth0 ++ [0])) (plain none (plain (some (wlan0 ++ [0])) .NULL))))),
          []⟩ [.fits, .fits, .fits, .fits, .collects] .NULL).outcome = .never_returns := by
  decide

/-- C6 (the code falls short of it): for the records `lo`, null, `eth0` the call skips the
null-named record and returns `[eth0, lo]` when every allocation fits; but when the
runtime starts a collection at the third allocation, the cons cell for `eth0`, the walk
goes on to `eth0` and the call never returns. -/
theorem interface_list_null_name_never_returns :
    (interface_list () ⟨some null_name_records, []⟩ [] .NULL).outcome
        = .returned [eth0, lo]
      ∧ (interface_list () ⟨some null_name_records, []⟩ [.fits, .fits, .collects]
          .NULL).outcome = .never_returns := by
  decide

/-- C7: when the enumeration succeeds and the call returns, every returned element `E` is
the name of some record: there is a record whose name field points at bytes `buf` such
that `E` is the C string at `buf`, that is `E` has `strlen buf` bytes, none of them zero,
and `buf` is `E` followed by nothing or by a zero byte and whatever comes after it. -/
theorem interface_list_elements_are_names (v : Unit) (head g : ifaddrs_ptr)
    (freed : List ifaddrs_ptr) (rt : Runtime) (l : value) (E : List Byte)
    (hl : (interface_list v ⟨some head, freed⟩ rt g).outcome = .returned l)
    (hE : E ∈ l) :
    ∃ buf, some buf ∈ name_fields head ∧ E = c_str buf ∧ E.length = strlen buf
      ∧ (∀ b ∈ E, b ≠ 0)
      ∧ ∃ rest, buf = E ++ rest ∧ (rest = [] ∨ ∃ tl, rest = 0 :: tl) := by
  rw [(interface_list_returned v head g freed rt l hl).1] at hE
  obtain ⟨buf, hbuf, hEq⟩ := mem_non_null_names E head (List.mem_reverse.1 hE)
  subst hEq
  exact ⟨buf, hbuf, rfl, c_str_length buf, c_str_no_zero buf, c_str_split buf⟩

/-- Witness of C7: the element `wlan0` returned for the single record whose name field
points at the bytes of `wlan0`, a zero byte and two more bytes, with a collection at
each of the two allocations. -/
theorem interface_list_elements_are_names_witness :
    (interface_list () ⟨some (plain (some (wlan0 ++ [0, 7, 7])) .NULL), []⟩
        [.collects, .collects] .NULL).outcome = .returned [wlan0]
      ∧ wlan0 ∈ [wlan0]
      ∧ ∃ buf, some buf ∈ name_fields (plain (some (wlan0 ++ [0, 7, 7])) .NULL)
          ∧ wlan0 = c_str buf ∧ wlan0.length = strlen buf ∧ (∀ b ∈ wlan0, b ≠ 0)
          ∧ ∃ rest, buf = wlan0 ++ rest ∧ (rest = [] ∨ ∃ tl, rest = 0 :: tl) :=
  ⟨by decide, by decide,
   interface_list_elements_are_names () (plain (some (wlan0 ++ [0, 7, 7])) .NULL) .NULL []
     [.collects, .collects] [wlan0] wlan0 (by decide) (by decide)⟩

/-- C8 (the code falls short of it): for a record whose name points at a zero byte,
followed by the record `lo`, the call returns `lo` and the empty string when every
allocation fits; but when the runtime starts a collection at the third allocation, the
cons cell for `lo`, the call never returns, so no empty string is returned. -/
theorem interface_list_empty_name_never_returns :
    empty_name_records empty_name_then_lo = 1
      ∧ (interface_list () ⟨some empty_name_then_lo, []⟩ [] .NULL).outcome
        = .returned [lo, []]
      ∧ (interface_list () ⟨some empty_name_then_lo, []⟩ [.fits, .fits, .collects]
          .NULL).outcome = .never_returns := by
  decide

/-- C9: two successful enumerations whose record lists carry the same sequence of names
(null, or the C string pointed at) make `interface_list` end in the same way, with the
same list when it returns, and leave the same runtime, whatever their other fields, the
log of release calls and the initial content of `ifaddr` are. -/
theorem interface_list_depends_on_names_only (v : Unit) (head1 head2 g1 g2 : ifaddrs_ptr)
    (freed1 freed2 : List ifaddrs_ptr) (rt : Runtime)
    (h : names_seen head1 = names_seen head2) :
    (interface_list v ⟨some head1, freed1⟩ rt g1).outcome
        = (interface_list v ⟨some head2, freed2⟩ rt g2).outcome
      ∧ (interface_list v ⟨some head1, freed1⟩ rt g1).runtime
        = (interface_list v ⟨some head2, freed2⟩ rt g2).runtime := by
  simp only [interface_list_success, interface_list_loop_names_seen head1 head2 h]
  cases interface_list_loop head2 roots_before_loop rt [] <;> exact ⟨rfl, rfl⟩

/-- Witness of C9: the lists `lo`, `eth0` without and with flags, addresses, netmask and
data; both calls return `[eth0, lo]`. -/
theorem interface_list_depends_on_names_only_witness :
    names_seen two_records
        = names_seen (.node (.node .NULL (some (eth0 ++ [0])) 4163
            (some ⟨2, [192, 168, 0, 1]⟩) (some ⟨2, [255, 255, 255, 0]⟩)
            (some ⟨2, [192, 168, 0, 255]⟩) (some [1, 2, 3]))
            (some (lo ++ [0, 9])) 73 (some ⟨2, [127, 0, 0, 1]⟩) (some ⟨2, [255, 0, 0, 0]⟩)
            none none)
      ∧ (interface_list () ⟨some two_records, []⟩ [.collects, .fits] .NULL).outcome
        = .returned [eth0, lo]
      ∧ (interface_list () ⟨some two_records, []⟩ [.collects, .fits] .NULL).outcome
        = (interface_list () ⟨some (.node (.node .NULL (some (eth0 ++ [0])) 4163
            (some ⟨2, [192, 168, 0, 1]⟩) (some ⟨2, [255, 255, 255, 0]⟩)
            (some ⟨2, [192, 168, 0, 255]⟩) (some [1, 2, 3]))
            (some (lo ++ [0, 9])) 73 (some ⟨2, [127, 0, 0, 1]⟩) (some ⟨2, [255, 0, 0, 0]⟩)
            none none), [.NULL]⟩ [.collects, .fits] (plain none .NULL)).outcome :=
  ⟨by decide, by decide,
   (interface_list_depends_on_names_only () _ _ .NULL (plain none .NULL) [] [.NULL]
     [.collects, .fits] (by decide)).1⟩

/-- C10 (the code falls short of it): two calls in a row against the same enumeration
outcome, the records `lo`, `eth0`, in a runtime whose seventh allocation starts a
collection: the first call returns `[eth0, lo]` and leaves the outcome of the enumeration
as it was, the second call never returns. -/
theorem interface_list_second_call_never_returns :
    (interface_list () ⟨some two_records, []⟩
        [.fits, .fits, .fits, .fits, .fits, .fits, .collects] .NULL).outcome
        = .returned [eth0, lo]
      ∧ (interface_list () ⟨some two_records, []⟩
          [.fits, .fits, .fits, .fits, .fits, .fits, .collects] .NULL).os.getifaddrs_outcome
        = some two_records
      ∧ (interface_list ()
          (interface_list () ⟨some two_records, []⟩
            [.fits, .fits, .fits, .fits, .fits, .fits, .collects] .NULL).os
          (interface_list () ⟨some two_records, []⟩
            [.fits, .fits, .fits, .fits, .fits, .fits, .collects] .NULL).runtime
          .NULL).outcome = .never_returns := by
  decide

end VyosUtils
